import Mathlib

/-!
Shallow embedding of `server/fetch-asset-history.py`: the batch historical
fetch pipeline (fund-family chunked fetch, market-family fetch, symbol
formatting, batch dispatcher, and CLI shim), together with verified
properties of it.

Modelling conventions:
- External libraries (`tefas.Crawler.fetch`, `yfinance.download`,
  `datetime.strptime`, `json.loads`) are modelled as components of an
  `Env` record, or as explicit function parameters.
- Datetimes are modelled at day granularity as integers: `timedelta(days=d)`
  is `+ d`, `datetime.now()` is `Env.now`.  The script passes window bounds
  to the fund client as `YYYY-MM-DD` strings produced by `strftime`, an
  injective encoding at day granularity, so the model passes the integers
  directly.
- Prices are modelled as integers; no verified property depends on float
  semantics.
- A raising library call is modelled as `Except.error`; a `try/except`
  block is a `match` on that result.
-/

/-- One output row: `{"date": ..., "price": ...}` (lines 70-73 / 102-105). -/
structure PricePoint where
  date : String
  price : Int
deriving DecidableEq, Repr

/-- The ambient environment of one process run: the current time and the
behaviour of the external libraries the script calls. -/
structure Env where
  /-- `datetime.now()`, at day granularity. -/
  now : Int
  /-- `datetime.strptime(s, "%Y-%m-%d")`: `none` models a raised parse error. -/
  parse : String → Option Int
  /-- `tefas.fetch(start, end, name, kind)`, rows already extracted to
  `(date, price)` pairs as in lines 59-73; `Except.error` models a raised
  exception for that window. -/
  tefasFetch : Int → Int → String → String → Except String (List PricePoint)
  /-- `yf.download(symbol, start=start_date_str)`, rows extracted as in
  lines 100-105; `Except.error` models a raised exception. -/
  yfDownload : String → String → Except String (List PricePoint)

/-- Lines 48-50: `chunk_end = current_start + timedelta(days=90)`, clamped
to `end_date`. -/
def chunkEndOf (cur endD : Int) : Int :=
  if cur + 90 > endD then endD else cur + 90

/-- Line 75: the diagnostic written for a failed chunk window. -/
def chunkErrMsg (cs ce : Int) (e : String) : String :=
  "Chunk failed " ++ toString cs ++ "-" ++ toString ce ++ ": " ++ e

/-- The points one chunk window contributes: the fetched rows on success,
nothing when the window's fetch raises (lines 55-75). -/
def fetchWindow (env : Env) (name kind : String) (w : Int × Int) : List PricePoint :=
  match env.tefasFetch w.1 w.2 name kind with
  | Except.ok pts => pts
  | Except.error _ => []

/-- The diagnostic text one chunk window makes line 75 write.  That write
executes inside `contextlib.redirect_stderr(devnull)` (line 25), which
covers the whole fund branch including the chunking loop, so the text goes
to `/dev/null` and never reaches the process error stream: `windowErr`
models what is written to the *redirected* stream, not observable output. -/
def windowErr (env : Env) (name kind : String) (w : Int × Int) : List String :=
  match env.tefasFetch w.1 w.2 name kind with
  | Except.ok _ => []
  | Except.error e => [chunkErrMsg w.1 w.2 e]

/-- The windows visited by the chunking loop (lines 46-78), with explicit
fuel bounding the iteration count; each iteration advances `cur` by at
least 2, so fuel `(endD - cur).toNat` is always sufficient. -/
def chunkWindowsF : Nat → Int → Int → List (Int × Int)
  | 0, _, _ => []
  | Nat.succ fuel, cur, endD =>
    if cur < endD then
      (cur, chunkEndOf cur endD) :: chunkWindowsF fuel (chunkEndOf cur endD + 1) endD
    else []

/-- The windows visited by the chunking loop `while current_start < end_date`. -/
def chunkWindows (cur endD : Int) : List (Int × Int) :=
  chunkWindowsF (endD - cur).toNat cur endD

/-- The chunking loop of lines 46-78: accumulated points paired with the
loop's *observable* error-stream output, one iteration per window,
per-window failures caught.  The failure handler's diagnostic (line 75) is
written while `sys.stderr` is redirected to `/dev/null` (line 25), so a
failed window contributes nothing observable; the text written to the
redirected stream is modelled separately by `swallowedLines`. -/
def chunkLoopF (env : Env) (name kind : String) : Nat → Int → Int → List PricePoint × List String
  | 0, _, _ => ([], [])
  | Nat.succ fuel, cur, endD =>
    if cur < endD then
      let ce := chunkEndOf cur endD
      let rest := chunkLoopF env name kind fuel (ce + 1) endD
      match env.tefasFetch cur ce name kind with
      | Except.ok data => (data ++ rest.1, rest.2)
      | Except.error _ => (rest.1, rest.2)
    else ([], [])

/-- The chunking loop, fuel instantiated to the (sufficient) day gap. -/
def chunkLoop (env : Env) (name kind : String) (cur endD : Int) : List PricePoint × List String :=
  chunkLoopF env name kind (endD - cur).toNat cur endD

/-- Everything the chunking loop writes to the redirected error stream
(swallowed by `/dev/null`): one `Chunk failed` line per failing window, in
window order. -/
def swallowedLines (env : Env) (name kind : String) (cur endD : Int) : List String :=
  ((chunkWindows cur endD).map (windowErr env name kind)).flatten

/-- Line 44: `param_kind = "EMK" if asset_type == 'befas' else "YAT"`. -/
def kindOf (assetType : String) : String :=
  if assetType == "befas" then "EMK" else "YAT"

/-- Line 19: `asset_type in ['fon', 'befas']`. -/
def fundType (assetType : String) : Bool :=
  assetType == "fon" || assetType == "befas"

/-- Lines 33-37: parse the start date, falling back to
`datetime.now() - timedelta(days=30)` when `strptime` raises. -/
def startOf (env : Env) (startDateStr : String) : Int :=
  match env.parse startDateStr with
  | some d => d
  | none => env.now - 30

/-- Python `str.upper()` on the character list of the string (agrees with
Python on the ASCII symbols this script handles); defined on the string's
underlying list so that concrete instances evaluate inside the kernel. -/
def pyUpper (s : String) : String := ⟨s.data.map Char.toUpper⟩

/-- Python `str.endswith(t)`. -/
def pyEndsWith (s t : String) : Bool := t.data.isSuffixOf s.data

/-- Python `str.strip()`: drop whitespace from both ends. -/
def pyStrip (s : String) : String :=
  ⟨((s.data.dropWhile Char.isWhitespace).reverse.dropWhile Char.isWhitespace).reverse⟩

/-- Python `str.startswith(c)` for a one-character pattern. -/
def startsWithChar (s : String) (c : Char) : Bool :=
  match s.data with
  | [] => false
  | a :: _ => a == c

/-- Lines 84-89: symbol formatting for the market (Yahoo Finance) family. -/
def formatSymbol (symbol assetType : String) : String :=
  let formatted := pyUpper symbol
  if assetType == "hisse" && !(pyEndsWith formatted ".IS") then
    formatted ++ ".IS"
  else if assetType == "kripto" && !(pyEndsWith formatted "-USD") then
    formatted ++ "-USD"
  else
    formatted

/-- Lines 96-111 (market branch): download, extract rows, and absorb a
raised exception into `[]` plus an `Error:` diagnostic (lines 108-111). -/
def yfBranch (env : Env) (formattedSymbol startDateStr : String) : List PricePoint × List String :=
  match env.yfDownload formattedSymbol startDateStr with
  | Except.ok pts => (pts, [])
  | Except.error e => ([], ["Error: " ++ e])

/-- `fetch_history(symbol, asset_type, start_date_str)` (lines 8-111):
returns the accumulated points together with the diagnostics the call
writes to the real (unredirected) error stream. -/
def fetch_history (env : Env) (symbol assetType startDateStr : String) :
    List PricePoint × List String :=
  if fundType assetType then
    chunkLoop env (pyUpper symbol) (kindOf assetType) (startOf env startDateStr) env.now
  else
    yfBranch env (formatSymbol symbol assetType) startDateStr

/-- One parsed batch request object; a field absent from the JSON object
(`req.get(...)` returning `None`) is `none`. -/
structure Req where
  symbol : Option String
  type : Option String
  startDate : Option String
deriving DecidableEq, Repr

/-- Python truthiness of `req.get(field)`: `None` and `""` are falsy. -/
def truthy : Option String → Bool
  | none => false
  | some s => !(s == "")

/-- Line 138: `if sym and typ and sda`. -/
def wellFormed (req : Req) : Bool :=
  truthy req.symbol && truthy req.type && truthy req.startDate

/-- `process_req` (lines 134-140): `none` models the `(None, None)` return
for a malformed request, which the aggregation loop then drops. -/
def process_req (env : Env) (req : Req) : Option (String × List PricePoint) :=
  match req.symbol, req.type, req.startDate with
  | some sym, some typ, some sda =>
    if !(sym == "") && !(typ == "") && !(sda == "") then
      some (sym, (fetch_history env sym typ sda).1)
    else none
  | _, _, _ => none

/-- Python dict assignment `d[k] = v` on an insertion-ordered dict
represented as an association list: overwrite in place if the key exists,
else append. -/
def pyInsert (m : List (String × List PricePoint)) (k : String) (v : List PricePoint) :
    List (String × List PricePoint) :=
  if m.any (fun p => p.1 == k) then
    m.map (fun p => if p.1 == k then (k, v) else p)
  else
    m ++ [(k, v)]

/-- One iteration of the aggregation loop (lines 144-147): collect one
future's result and store it under its symbol, or drop it. -/
def batchStep (env : Env) (acc : List (String × List PricePoint)) (req : Req) :
    List (String × List PricePoint) :=
  match process_req env req with
  | some (sym, data) => pyInsert acc sym data
  | none => acc

/-- `batch_results` after the aggregation loop (lines 129-147): futures are
read back in submission order, i.e. in input order. -/
def runBatch (env : Env) (reqs : List Req) : List (String × List PricePoint) :=
  reqs.foldl (batchStep env) []

/-- The observable stderr diagnostics produced by the batch workers: the
market branch's `Error:` lines (written by line 110 outside any redirect).
Fund-branch chunk diagnostics are swallowed by the devnull redirect and
never appear here.  (In the real process these lines interleave
nondeterministically across worker threads; no verified property depends
on their order, and this model lists them in submission order.) -/
def batchErrs (env : Env) (reqs : List Req) : List String :=
  (reqs.map (fun r =>
    match r.symbol, r.type, r.startDate with
    | some sym, some typ, some sda =>
      if !(sym == "") && !(typ == "") && !(sda == "") then
        (fetch_history env sym typ sda).2
      else []
    | _, _, _ => [])).flatten

/-- JSON string literal (escape sequences elided; no verified property
feeds control characters through serialization). -/
def jsonStr (s : String) : String := "\"" ++ s ++ "\""

/-- `json.dumps` of one point object, with Python's default separators. -/
def dumpPoint (p : PricePoint) : String :=
  "\x7b\"date\": " ++ jsonStr p.date ++ ", \"price\": " ++ toString p.price ++ "\x7d"

/-- `json.dumps` of a point list. -/
def dumpSeries (ps : List PricePoint) : String :=
  "[" ++ String.intercalate ", " (ps.map dumpPoint) ++ "]"

/-- `json.dumps` of the batch result dict, keys in insertion order. -/
def dumpBatch (m : List (String × List PricePoint)) : String :=
  "\x7b" ++ String.intercalate ", " (m.map (fun p => jsonStr p.1 ++ ": " ++ dumpSeries p.2)) ++ "\x7d"

/-- The state of standard input: whether it is an interactive terminal, and
what `sys.stdin.read()` would return. -/
structure StdinState where
  isatty : Bool
  content : String
deriving DecidableEq, Repr

/-- Observable outcome of one run: bytes on stdout, diagnostic lines on
stderr, exit status. -/
structure Output where
  stdout : String
  stderr : List String
  exitCode : Nat
deriving DecidableEq, Repr

/-- The `__main__` block (lines 113-165).  `argv` is `sys.argv` (program
name included); `jloads` models `json.loads` specialised to the request
shape, `Except.error` covering both a JSON decode error and a subsequent
shape error (either is caught by the boundary handler at line 162). -/
def main_model (env : Env) (jloads : String → Except String (List Req))
    (argv : List String) (stdin : StdinState) : Output :=
  let input_arg :=
    if argv.length > 1 then argv.getD 1 ""
    else if !stdin.isatty then stdin.content
    else "[]"
  if startsWithChar (pyStrip input_arg) '[' then
    match jloads input_arg with
    | Except.ok reqs =>
      { stdout := dumpBatch (runBatch env reqs)
        stderr := batchErrs env reqs
        exitCode := 0 }
    | Except.error e =>
      { stdout := "\x7b\x7d"
        stderr := ["Critical Error: " ++ e]
        exitCode := 0 }
  else
    if argv.length > 3 then
      let r := fetch_history env (argv.getD 1 "") (argv.getD 2 "") (argv.getD 3 "")
      { stdout := dumpSeries r.1, stderr := r.2, exitCode := 0 }
    else
      { stdout := "[]", stderr := [], exitCode := 0 }

/-- An observable event of the batch execution: a worker finishes future
`i`, or the main thread's loop collects the next future in submission
order (`future.result()` returning). -/
inductive Ev where
  | complete (i : Nat)
  | collect
deriving DecidableEq, Repr

/-- Execution state of the batch run: which futures have completed, how
many the main loop has collected, and the dict built so far. -/
structure ExecState where
  completed : List Nat
  nextIdx : Nat
  out : List (String × List PricePoint)
deriving DecidableEq, Repr

/-- Initial execution state. -/
def initState : ExecState := ⟨[], 0, []⟩

/-- One step of the batch execution.  A `complete i` event may fire for any
not-yet-completed future (worker completion order is unconstrained); a
`collect` event fires only when the future the main loop is blocked on has
completed, and performs that iteration of lines 144-147. -/
def stepEv (env : Env) (reqs : List Req) (s : ExecState) : Ev → Option ExecState
  | Ev.complete i =>
    if i < reqs.length && !(s.completed.contains i) then
      some { s with completed := i :: s.completed }
    else none
  | Ev.collect =>
    match reqs[s.nextIdx]? with
    | some req =>
      if s.completed.contains s.nextIdx then
        some { completed := s.completed
               nextIdx := s.nextIdx + 1
               out := batchStep env s.out req }
      else none
    | none => none

/-- Run a sequence of events from a state; `none` when some event is not
enabled. -/
def runTrace (env : Env) (reqs : List Req) : ExecState → List Ev → Option ExecState
  | s, [] => some s
  | s, e :: rest =>
    match stepEv env reqs s e with
    | some s2 => runTrace env reqs s2 rest
    | none => none

/-- The request's upstream source yields no data: every upstream call the
script would make for this request either raises or returns an empty row
set. -/
def upstreamEmptyFor (env : Env) (sym typ sda : String) : Prop :=
  if fundType typ then
    ∀ w ∈ chunkWindows (startOf env sda) env.now, ∀ pts,
      env.tefasFetch w.1 w.2 (pyUpper sym) (kindOf typ) = Except.ok pts → pts = []
  else
    ∀ pts, env.yfDownload (formatSymbol sym typ) sda = Except.ok pts → pts = []

/-- The well-formed requests of the batch carrying a given symbol, in input
order. -/
def matchingReqs (reqs : List Req) (sym : String) : List Req :=
  reqs.filter (fun r => wellFormed r && r.symbol == some sym)

/-- A concrete environment used to instantiate the verified properties:
parse succeeds only on "2024-01-01" (as day 0), the fund client fails on
windows starting at day 0 and returns one row otherwise, and the market
client returns one row for start date "d2" and no rows otherwise. -/
def envW : Env :=
  { now := 100
    parse := fun s => if s = "2024-01-01" then some 0 else none
    tefasFetch := fun a _ _ _ => if a = 0 then Except.error "down" else Except.ok [⟨"p", 1⟩]
    yfDownload := fun _ sd => if sd = "d2" then Except.ok [⟨"p2", 2⟩] else Except.ok [] }

/-- A concrete model of `json.loads` on the request shape: succeeds only on
the literal `[]`. -/
def jlW : String → Except String (List Req) :=
  fun s => if s = "[]" then Except.ok []
           else Except.error "Expecting value: line 1 column 1 (char 0)"

/-- Two distinct well-formed requests. -/
def reqsW : List Req :=
  [⟨some "A", some "x", some "2024-01-01"⟩, ⟨some "B", some "x", some "2024-01-01"⟩]

/-- Two well-formed requests with the same symbol and different start
dates, so their fetch results differ. -/
def reqsD : List Req :=
  [⟨some "A", some "x", some "d1"⟩, ⟨some "A", some "x", some "d2"⟩]

/-- A complete trace for `reqsW` completing the futures in submission order. -/
def t1W : List Ev := [Ev.complete 0, Ev.complete 1, Ev.collect, Ev.collect]

/-- A complete trace for `reqsW` completing the futures in reverse order. -/
def t2W : List Ev := [Ev.complete 1, Ev.complete 0, Ev.collect, Ev.collect]

/-- A complete trace for `reqsD` completing the futures in reverse order. -/
def tD : List Ev := [Ev.complete 1, Ev.complete 0, Ev.collect, Ev.collect]

/-- Final state of `t1W` on `reqsW`. -/
def s1W : ExecState := ⟨[1, 0], 2, [("A", []), ("B", [])]⟩

/-- Final state of `t2W` on `reqsW`. -/
def s2W : ExecState := ⟨[0, 1], 2, [("A", []), ("B", [])]⟩

/-- Final state of `tD` on `reqsD`. -/
def stD : ExecState := ⟨[0, 1], 2, [("A", [⟨"p2", 2⟩])]⟩


/-! ### Shape of the chunking loop -/

theorem chunkEndOf_eq_min (cur endD : Int) : chunkEndOf cur endD = min (cur + 90) endD := by
  simp only [chunkEndOf, min_def]
  split <;> split <;> omega

theorem chunkLoopF_eq_windows (env : Env) (name kind : String) (fuel : Nat) :
    ∀ (cur endD : Int),
      chunkLoopF env name kind fuel cur endD =
        (((chunkWindowsF fuel cur endD).map (fetchWindow env name kind)).flatten, []) := by
  induction fuel with
  | zero => intro cur endD; rfl
  | succ fuel ih =>
    intro cur endD
    by_cases h : cur < endD
    · cases htf : env.tefasFetch cur (chunkEndOf cur endD) name kind with
      | ok data =>
        simp [chunkLoopF, chunkWindowsF, h, htf, ih, fetchWindow]
      | error e =>
        simp [chunkLoopF, chunkWindowsF, h, htf, ih, fetchWindow, windowErr]
    · simp [chunkLoopF, chunkWindowsF, h]

theorem chunkLoop_eq_windows (env : Env) (name kind : String) (cur endD : Int) :
    chunkLoop env name kind cur endD =
      (((chunkWindows cur endD).map (fetchWindow env name kind)).flatten, []) :=
  chunkLoopF_eq_windows env name kind _ cur endD

theorem chunkWindowsF_mem_end (fuel : Nat) :
    ∀ (cur endD : Int) (w : Int × Int), w ∈ chunkWindowsF fuel cur endD →
      w.2 = min (w.1 + 90) endD := by
  induction fuel with
  | zero => intro cur endD w hw; simp [chunkWindowsF] at hw
  | succ fuel ih =>
    intro cur endD w hw
    by_cases h : cur < endD
    · rw [chunkWindowsF, if_pos h] at hw
      rcases List.mem_cons.mp hw with hw | hw
      · subst hw; simpa using chunkEndOf_eq_min cur endD
      · exact ih _ _ _ hw
    · simp [chunkWindowsF, h] at hw

theorem chunkWindowsF_head (fuel : Nat) (cur endD : Int) (b : Int × Int)
    (hb : (chunkWindowsF fuel cur endD).head? = some b) : b.1 = cur := by
  cases fuel with
  | zero => simp [chunkWindowsF] at hb
  | succ fuel =>
    by_cases h : cur < endD
    · rw [chunkWindowsF, if_pos h] at hb
      simp only [List.head?_cons, Option.some.injEq] at hb
      rw [← hb]
    · simp [chunkWindowsF, h] at hb

theorem chunkWindowsF_chain (fuel : Nat) :
    ∀ (cur endD : Int),
      List.Chain' (fun a b => b.1 = a.2 + 1) (chunkWindowsF fuel cur endD) := by
  induction fuel with
  | zero => intro cur endD; simp [chunkWindowsF]
  | succ fuel ih =>
    intro cur endD
    by_cases h : cur < endD
    · rw [chunkWindowsF, if_pos h]
      refine List.chain'_cons'.mpr ⟨?_, ih _ _⟩
      intro b hb
      exact chunkWindowsF_head fuel (chunkEndOf cur endD + 1) endD b hb

    · simp [chunkWindowsF, h]

theorem chunkWindows_head (cur endD : Int) (h : cur < endD) :
    (chunkWindows cur endD).head? = some (cur, min (cur + 90) endD) := by
  unfold chunkWindows
  cases hn : (endD - cur).toNat with
  | zero => omega
  | succ n =>
    rw [chunkWindowsF, if_pos h]
    simp [chunkEndOf_eq_min]

theorem chunkWindows_mem_end (cur endD : Int) (w : Int × Int)
    (hw : w ∈ chunkWindows cur endD) : w.2 = min (w.1 + 90) endD :=
  chunkWindowsF_mem_end _ _ _ _ hw

theorem chunkWindows_chain (cur endD : Int) :
    List.Chain' (fun a b => b.1 = a.2 + 1) (chunkWindows cur endD) :=
  chunkWindowsF_chain _ _ _

/-! ### The insertion-ordered dict -/

theorem lookup_map_update (k : String) (v : List PricePoint) :
    ∀ (m : List (String × List PricePoint)), m.any (fun p => p.1 == k) = true →
      List.lookup k (m.map (fun p => if p.1 == k then (k, v) else p)) = some v := by
  intro m
  induction m with
  | nil => intro h; simp at h
  | cons p t ih =>
    obtain ⟨a, b⟩ := p
    intro h
    simp only [List.map_cons]
    by_cases hp : a = k
    · rw [if_pos (by simp [hp] : (((a, b) : String × List PricePoint).1 == k) = true)]
      rw [List.lookup_cons]
      simp
    · rw [if_neg (by simp [hp])]
      rw [List.lookup_cons]
      have hk : (k == a) = false := by simp [Ne.symm hp]
      rw [hk]
      have ht : t.any (fun q => q.1 == k) = true := by
        simp only [List.any_cons] at h
        rcases Bool.or_eq_true_iff.mp h with hh | hh
        · exact absurd (eq_of_beq hh) hp
        · exact hh
      exact ih ht

theorem lookup_append_of_absent (k : String) (l : List (String × List PricePoint)) :
    ∀ (m : List (String × List PricePoint)), (∀ p ∈ m, ¬ p.1 = k) →
      List.lookup k (m ++ l) = List.lookup k l := by
  intro m
  induction m with
  | nil => intro _; simp
  | cons p t ih =>
    obtain ⟨a, b⟩ := p
    intro h
    have ha : ¬ a = k := h (a, b) (List.mem_cons_self _ t)
    have hk : (k == a) = false := by simp [Ne.symm ha]
    rw [List.cons_append, List.lookup_cons, hk]
    exact ih (fun q hq => h q (List.mem_cons_of_mem _ hq))

theorem lookup_pyInsert_self (m : List (String × List PricePoint)) (k : String)
    (v : List PricePoint) : List.lookup k (pyInsert m k v) = some v := by
  unfold pyInsert
  by_cases h : m.any (fun p => p.1 == k) = true
  · rw [if_pos h]
    exact lookup_map_update k v m h
  · rw [if_neg h]
    have habs : ∀ p ∈ m, ¬ p.1 = k := by
      intro p hp hpk
      exact h (List.any_eq_true.mpr ⟨p, hp, by simp [hpk]⟩)
    rw [lookup_append_of_absent k _ m habs]
    rw [List.lookup_cons]
    simp

theorem lookup_map_update_ne (k f : String) (v : List PricePoint) (hne : f ≠ k) :
    ∀ (m : List (String × List PricePoint)),
      List.lookup f (m.map (fun p => if p.1 == k then (k, v) else p)) = List.lookup f m := by
  intro m
  induction m with
  | nil => simp
  | cons p t ih =>
    obtain ⟨a, b⟩ := p
    simp only [List.map_cons]
    by_cases hp : a = k
    · rw [if_pos (by simp [hp] : (((a, b) : String × List PricePoint).1 == k) = true)]
      rw [List.lookup_cons, List.lookup_cons]
      have hf : (f == k) = false := by simp [hne]
      have hfa : (f == a) = false := by simp [hp ▸ hne]
      rw [hf, hfa]
      exact ih
    · rw [if_neg (by simp [hp])]
      rw [List.lookup_cons, List.lookup_cons]
      cases hfa : f == a with
      | true => rfl
      | false => exact ih

theorem lookup_pyInsert_ne (m : List (String × List PricePoint)) (k f : String)
    (v : List PricePoint) (hne : f ≠ k) :
    List.lookup f (pyInsert m k v) = List.lookup f m := by
  unfold pyInsert
  by_cases h : m.any (fun p => p.1 == k) = true
  · rw [if_pos h]
    exact lookup_map_update_ne k f v hne m
  · rw [if_neg h]
    induction m with
    | nil =>
      rw [List.nil_append, List.lookup_cons]
      have hf : (f == k) = false := by simp [hne]
      rw [hf]
    | cons p t ih =>
      obtain ⟨a, b⟩ := p
      rw [List.cons_append, List.lookup_cons, List.lookup_cons]
      cases hfa : f == a with
      | true => rfl
      | false =>
        refine ih ?_
        intro hc
        refine h ?_
        simp only [List.any_cons]
        exact Bool.or_eq_true_iff.mpr (Or.inr hc)

theorem keys_pyInsert (m : List (String × List PricePoint)) (k : String) (v : List PricePoint) :
    (pyInsert m k v).map Prod.fst =
      if m.any (fun p => p.1 == k) then m.map Prod.fst else m.map Prod.fst ++ [k] := by
  unfold pyInsert
  by_cases h : m.any (fun p => p.1 == k) = true
  · rw [if_pos h, if_pos h, List.map_map]
    refine List.map_congr_left ?_
    intro p _
    by_cases hp : p.1 = k
    · simp [hp]
    · simp [hp]
  · rw [if_neg h, if_neg h, List.map_append]
    rfl

theorem mem_keys_pyInsert (m : List (String × List PricePoint)) (k s : String)
    (v : List PricePoint) :
    s ∈ (pyInsert m k v).map Prod.fst ↔ s ∈ m.map Prod.fst ∨ s = k := by
  rw [keys_pyInsert]
  by_cases h : m.any (fun p => p.1 == k) = true
  · rw [if_pos h]
    obtain ⟨p, hp, hpk⟩ := List.any_eq_true.mp h
    have hkm : k ∈ m.map Prod.fst := by
      rw [show k = p.1 from (eq_of_beq hpk).symm]
      exact List.mem_map_of_mem Prod.fst hp
    constructor
    · exact Or.inl
    · rintro (hs | rfl)
      · exact hs
      · exact hkm
  · rw [if_neg h]
    simp

theorem nodup_keys_pyInsert (m : List (String × List PricePoint)) (k : String)
    (v : List PricePoint) (hnd : (m.map Prod.fst).Nodup) :
    ((pyInsert m k v).map Prod.fst).Nodup := by
  rw [keys_pyInsert]
  by_cases h : m.any (fun p => p.1 == k) = true
  · rw [if_pos h]; exact hnd
  · rw [if_neg h]
    rw [List.nodup_append]
    refine ⟨hnd, List.nodup_singleton k, ?_⟩
    intro s hs hk
    rcases List.mem_singleton.mp hk with rfl
    rcases List.mem_map.mp hs with ⟨p, hp, hpk⟩
    exact h (List.any_eq_true.mpr ⟨p, hp, by simp [hpk]⟩)

/-! ### The request validation step -/

theorem process_req_of_wellFormed (env : Env) (req : Req) (sym typ sda : String)
    (hs : req.symbol = some sym) (ht : req.type = some typ) (hd : req.startDate = some sda)
    (hw : wellFormed req = true) :
    process_req env req = some (sym, (fetch_history env sym typ sda).1) := by
  obtain ⟨rs, rt, rd⟩ := req
  simp only at hs ht hd
  subst hs; subst ht; subst hd
  simp only [wellFormed, truthy, Bool.and_eq_true] at hw
  simp [process_req, hw.1.1, hw.1.2, hw.2]

theorem process_req_of_malformed (env : Env) (req : Req)
    (hw : wellFormed req = false) : process_req env req = none := by
  obtain ⟨rs, rt, rd⟩ := req
  cases rs with
  | none => rfl
  | some sym =>
    cases rt with
    | none => rfl
    | some typ =>
      cases rd with
      | none => rfl
      | some sda =>
        simp only [wellFormed, truthy] at hw
        simp only [process_req]
        rw [if_neg (by simp [hw])]

theorem process_req_some_inv (env : Env) (req : Req) (sym : String) (data : List PricePoint)
    (h : process_req env req = some (sym, data)) :
    wellFormed req = true ∧ req.symbol = some sym := by
  obtain ⟨rs, rt, rd⟩ := req
  cases rs with
  | none => exact absurd h (by simp [process_req])
  | some s0 =>
    cases rt with
    | none => exact absurd h (by simp [process_req])
    | some t0 =>
      cases rd with
      | none => exact absurd h (by simp [process_req])
      | some d0 =>
        simp only [process_req] at h
        by_cases hc : (!(s0 == "") && !(t0 == "") && !(d0 == "")) = true
        · rw [if_pos hc] at h
          obtain ⟨rfl, -⟩ := Prod.mk.injEq .. ▸ Option.some.injEq .. ▸ h
          constructor
          · simp only [wellFormed, truthy]
            exact hc
          · rfl
        · rw [if_neg hc] at h
          exact absurd h (by simp)

/-! ### The aggregation loop -/

theorem runBatch_append_one (env : Env) (reqs : List Req) (r : Req) :
    runBatch env (reqs ++ [r]) = batchStep env (runBatch env reqs) r := by
  simp [runBatch, List.foldl_append]

theorem symbol_fields_of_wellFormed (r : Req) (hw : wellFormed r = true) :
    ∃ s0 t0 d0, r.symbol = some s0 ∧ r.type = some t0 ∧ r.startDate = some d0 := by
  obtain ⟨rs, rt, rd⟩ := r
  cases rs with
  | none => simp [wellFormed, truthy] at hw
  | some s0 =>
    cases rt with
    | none => simp [wellFormed, truthy] at hw
    | some t0 =>
      cases rd with
      | none => simp [wellFormed, truthy] at hw
      | some d0 => exact ⟨s0, t0, d0, rfl, rfl, rfl⟩

theorem lookup_runBatch_last (env : Env) (sym : String) (reqs : List Req) :
    List.lookup sym (runBatch env reqs) =
      (matchingReqs reqs sym).getLast?.elim none
        (fun r => (process_req env r).map Prod.snd) := by
  induction reqs using List.reverseRecOn with
  | nil => simp [runBatch, matchingReqs]
  | append_singleton l r ih =>
    rw [runBatch_append_one]
    by_cases hw : wellFormed r = true
    · obtain ⟨s0, t0, d0, hs, ht, hd⟩ := symbol_fields_of_wellFormed r hw
      have hpr := process_req_of_wellFormed env r s0 t0 d0 hs ht hd hw
      by_cases hsym : s0 = sym
      · subst hsym
        have hfil : matchingReqs (l ++ [r]) s0 = matchingReqs l s0 ++ [r] := by
          simp [matchingReqs, List.filter_append, hw, hs]
        rw [hfil, List.getLast?_concat]
        simp only [batchStep, hpr]
        rw [lookup_pyInsert_self]
        simp [hpr]
      · have hfil : matchingReqs (l ++ [r]) sym = matchingReqs l sym := by
          simp [matchingReqs, List.filter_append, hs, hsym]
        rw [hfil]
        simp only [batchStep, hpr]
        rw [lookup_pyInsert_ne _ _ _ _ (fun hc => hsym hc.symm)]
        exact ih
    · have hw' : wellFormed r = false := by
        cases hww : wellFormed r
        · rfl
        · exact absurd hww hw
      have hfil : matchingReqs (l ++ [r]) sym = matchingReqs l sym := by
        simp [matchingReqs, List.filter_append, hw']
      rw [hfil]
      simp only [batchStep, process_req_of_malformed env r hw']
      exact ih

/-! ### The execution traces of the batch dispatcher -/

theorem stepEv_cases (env : Env) (reqs : List Req) (s s1 : ExecState) (e : Ev)
    (h : stepEv env reqs s e = some s1) :
    (s1.out = s.out ∧ s1.nextIdx = s.nextIdx) ∨
      (∃ req, reqs[s.nextIdx]? = some req ∧ s1.nextIdx = s.nextIdx + 1 ∧
        s1.out = batchStep env s.out req) := by
  cases e with
  | complete i =>
    simp only [stepEv] at h
    split at h
    · cases h
      exact Or.inl ⟨rfl, rfl⟩
    · cases h
  | collect =>
    simp only [stepEv] at h
    split at h
    · rename_i req heq
      split at h
      · cases h
        exact Or.inr ⟨req, heq, rfl, rfl⟩
      · cases h
    · cases h

theorem runTrace_inv (env : Env) (reqs : List Req) :
    ∀ (t : List Ev) (s s2 : ExecState),
      runTrace env reqs s t = some s2 →
      s.out = (reqs.take s.nextIdx).foldl (batchStep env) [] →
      s2.out = (reqs.take s2.nextIdx).foldl (batchStep env) [] := by
  intro t
  induction t with
  | nil =>
    intro s s2 h hI
    simp only [runTrace] at h
    cases h
    exact hI
  | cons e rest ih =>
    intro s s2 h hI
    simp only [runTrace] at h
    split at h
    · rename_i s1 hst
      refine ih s1 s2 h ?_
      rcases stepEv_cases env reqs s s1 e hst with ⟨ho, hn⟩ | ⟨req, hr, hn, ho⟩
      · rw [ho, hn]
        exact hI
      · rw [ho, hn, List.take_succ, hr]
        simp [List.foldl_append, hI]
    · cases h

theorem runTrace_out_eq_runBatch (env : Env) (reqs : List Req) (t : List Ev) (s : ExecState)
    (h : runTrace env reqs initState t = some s) (hd : s.nextIdx = reqs.length) :
    s.out = runBatch env reqs := by
  have hI := runTrace_inv env reqs t initState s h rfl
  rw [hd, List.take_length] at hI
  exact hI

/-! ### Fetch-side claims -/

theorem fetch_history_fund_eq (env : Env) (sym typ sda : String)
    (hty : fundType typ = true) :
    fetch_history env sym typ sda =
      chunkLoop env (pyUpper sym) (kindOf typ) (startOf env sda) env.now := by
  simp [fetch_history, hty]

/-- Claim C5: for a fund-family request with parseable startDate before
now, the loop visits consecutive, non-overlapping windows (each following
window starts the day after the previous one ends), each window ends at
`min (start + 90) now` (fixed 90-day width, truncated at the end date),
the first window starts at the parsed start date, the returned series is
the per-window results concatenated in window order, and its length is the
sum of the per-window lengths. -/
theorem claim_C5_chunking (env : Env) (sym typ sda : String) (s : Int)
    (hty : fundType typ = true) (hp : env.parse sda = some s) (hs : s < env.now) :
    (∀ w ∈ chunkWindows s env.now, w.2 = min (w.1 + 90) env.now) ∧
    List.Chain' (fun a b => b.1 = a.2 + 1) (chunkWindows s env.now) ∧
    (chunkWindows s env.now).head? = some (s, min (s + 90) env.now) ∧
    (fetch_history env sym typ sda).1 =
      ((chunkWindows s env.now).map (fetchWindow env (pyUpper sym) (kindOf typ))).flatten ∧
    (fetch_history env sym typ sda).1.length =
      ((chunkWindows s env.now).map
        (fun w => (fetchWindow env (pyUpper sym) (kindOf typ) w).length)).sum := by
  have hfe : fetch_history env sym typ sda =
      chunkLoop env (pyUpper sym) (kindOf typ) s env.now := by
    rw [fetch_history_fund_eq env sym typ sda hty]
    simp [startOf, hp]
  have hcw := chunkLoop_eq_windows env (pyUpper sym) (kindOf typ) s env.now
  refine ⟨fun w hw => chunkWindows_mem_end s env.now w hw,
          chunkWindows_chain s env.now,
          chunkWindows_head s env.now hs, ?_, ?_⟩
  · rw [hfe, hcw]
  · rw [hfe, hcw]
    simp only [List.length_flatten, List.map_map]
    rfl

/-- Claim C6, counterexample: the chunk for window (0,90) raises, the
function still returns the other window's points (the partial result), but
nothing at all reaches the error stream — the line-75 diagnostic is
written under `redirect_stderr(devnull)` and is swallowed, so the claim's
"records a diagnostic on the error stream" is false here. -/
theorem claim_C6_counterexample :
    envW.tefasFetch 0 90 (pyUpper "mac") (kindOf "fon") = Except.error "down" ∧
    (fetch_history envW "mac" "fon" "2024-01-01").1 = [⟨"p", 1⟩] ∧
    (fetch_history envW "mac" "fon" "2024-01-01").2 = [] ∧
    chunkErrMsg 0 90 "down" ∉ (fetch_history envW "mac" "fon" "2024-01-01").2 :=
  ⟨rfl, rfl, rfl, by decide⟩

/-- Claim C6, amended: when one chunk window's upstream fetch raises, the
handler writes its diagnostic only to the redirected stream (swallowed by
`/dev/null`, so the call's observable error stream stays empty), skips
that window's points, and continues with the next window: the function
still returns every other window's contribution, concatenated in window
order, rather than discarding them or raising. -/
theorem claim_C6_amended_window_failure (env : Env) (sym typ sda : String) (s : Int)
    (hty : fundType typ = true) (hp : env.parse sda = some s)
    (w : Int × Int) (hw : w ∈ chunkWindows s env.now) (e : String)
    (he : env.tefasFetch w.1 w.2 (pyUpper sym) (kindOf typ) = Except.error e) :
    chunkErrMsg w.1 w.2 e ∈ swallowedLines env (pyUpper sym) (kindOf typ) s env.now ∧
    (fetch_history env sym typ sda).2 = [] ∧
    (fetch_history env sym typ sda).1 =
      ((chunkWindows s env.now).map (fetchWindow env (pyUpper sym) (kindOf typ))).flatten ∧
    fetchWindow env (pyUpper sym) (kindOf typ) w = [] := by
  have hfe : fetch_history env sym typ sda =
      chunkLoop env (pyUpper sym) (kindOf typ) s env.now := by
    rw [fetch_history_fund_eq env sym typ sda hty]
    simp [startOf, hp]
  have hcw := chunkLoop_eq_windows env (pyUpper sym) (kindOf typ) s env.now
  refine ⟨?_, by rw [hfe, hcw], by rw [hfe, hcw], by simp [fetchWindow, he]⟩
  refine List.mem_flatten.mpr
    ⟨windowErr env (pyUpper sym) (kindOf typ) w, List.mem_map_of_mem _ hw, ?_⟩
  simp [windowErr, he]

/-- Claim C7: an unparseable startDate is silently replaced by
`now - 30 days`; the call neither raises nor returns an error marker, and
behaves exactly like a call whose startDate parses to `now - 30`. -/
theorem claim_C7_silent_date_fallback (env : Env) (sym typ sda : String)
    (hty : fundType typ = true) (hp : env.parse sda = none) :
    fetch_history env sym typ sda =
      chunkLoop env (pyUpper sym) (kindOf typ) (env.now - 30) env.now ∧
    (∀ sda2, env.parse sda2 = some (env.now - 30) →
      fetch_history env sym typ sda = fetch_history env sym typ sda2) := by
  constructor
  · rw [fetch_history_fund_eq env sym typ sda hty]
    simp [startOf, hp]
  · intro sda2 hp2
    rw [fetch_history_fund_eq env sym typ sda hty,
        fetch_history_fund_eq env sym typ sda2 hty]
    simp [startOf, hp, hp2]

/-- Claim C8: the upstream symbol is the uppercased input; `.IS` is
appended only for `hisse` when not already a suffix of the uppercased
symbol, `-USD` only for `kripto` when not already a suffix; every other
asset type (the fund family in particular) queries the uppercased symbol
unchanged. -/
theorem claim_C8_symbol_formatting (env : Env) (sym typ sda : String) :
    (formatSymbol sym "hisse" =
      (if pyEndsWith (pyUpper sym) ".IS" then pyUpper sym else (pyUpper sym) ++ ".IS")) ∧
    (formatSymbol sym "kripto" =
      (if pyEndsWith (pyUpper sym) "-USD" then pyUpper sym else (pyUpper sym) ++ "-USD")) ∧
    (typ ≠ "hisse" → typ ≠ "kripto" → formatSymbol sym typ = pyUpper sym) ∧
    (fundType typ = true →
      fetch_history env sym typ sda =
        chunkLoop env (pyUpper sym) (kindOf typ) (startOf env sda) env.now) ∧
    (fundType typ = false →
      fetch_history env sym typ sda = yfBranch env (formatSymbol sym typ) sda) := by
  refine ⟨?_, ?_, ?_, fetch_history_fund_eq env sym typ sda, ?_⟩
  · by_cases h : pyEndsWith (pyUpper sym) ".IS"
    · simp [formatSymbol, h]
    · simp [formatSymbol, h]
  · by_cases h : pyEndsWith (pyUpper sym) "-USD"
    · simp [formatSymbol, h]
    · simp [formatSymbol, h]
  · intro h1 h2
    simp [formatSymbol, h1, h2]
  · intro hf
    simp [fetch_history, hf]

/-! ### Batch-side claims -/

theorem flatten_eq_nil_of_all_nil (L : List (List PricePoint)) (h : ∀ l ∈ L, l = []) :
    L.flatten = [] := by
  induction L with
  | nil => rfl
  | cons a t ih =>
    rw [List.flatten_cons, h a (List.mem_cons_self a t),
        ih (fun l hl => h l (List.mem_cons_of_mem a hl))]
    rfl

theorem fetch_empty_of_upstreamEmpty (env : Env) (sym typ sda : String)
    (h : upstreamEmptyFor env sym typ sda) : (fetch_history env sym typ sda).1 = [] := by
  by_cases hf : fundType typ = true
  · unfold upstreamEmptyFor at h
    rw [if_pos hf] at h
    rw [fetch_history_fund_eq env sym typ sda hf, chunkLoop_eq_windows]
    refine flatten_eq_nil_of_all_nil _ ?_
    intro l hl
    rcases List.mem_map.mp hl with ⟨w, hw, rfl⟩
    unfold fetchWindow
    cases htf : env.tefasFetch w.1 w.2 (pyUpper sym) (kindOf typ) with
    | ok pts => exact h w hw pts htf
    | error e => rfl
  · have hf' : fundType typ = false := by
      cases hff : fundType typ
      · rfl
      · exact absurd hff hf
    unfold upstreamEmptyFor at h
    rw [if_neg (by rw [hf']; exact Bool.false_ne_true)] at h
    simp only [fetch_history, hf', Bool.false_eq_true, if_false, yfBranch]
    cases hyf : env.yfDownload (formatSymbol sym typ) sda with
    | ok pts => exact h pts hyf
    | error e => rfl

/-- Claim C1: a well-formed request whose upstream fetches all raise or
return no rows still yields its symbol as a key of the batch result,
mapped to the empty series; the failure is absorbed inside
`fetch_history`, which is total in this model, and never erases the key. -/
theorem claim_C1_failed_fetch_keeps_key (env : Env) (reqs : List Req) (req : Req)
    (sym : String) (hmem : req ∈ reqs) (hw : wellFormed req = true)
    (hsym : req.symbol = some sym)
    (hup : ∀ r ∈ reqs, wellFormed r = true → r.symbol = some sym →
      ∀ t0 d0, r.type = some t0 → r.startDate = some d0 →
        upstreamEmptyFor env sym t0 d0) :
    List.lookup sym (runBatch env reqs) = some [] := by
  rw [lookup_runBatch_last]
  have hmem2 : req ∈ matchingReqs reqs sym := by
    rw [matchingReqs, List.mem_filter]
    exact ⟨hmem, by simp [hw, hsym]⟩
  obtain ⟨rl, hrl⟩ : ∃ rl, (matchingReqs reqs sym).getLast? = some rl := by
    cases hg : (matchingReqs reqs sym).getLast? with
    | none =>
      exact absurd (List.getLast?_eq_none_iff.mp hg ▸ hmem2) (List.not_mem_nil req)
    | some rl => exact ⟨rl, rfl⟩
  have hrlmem : rl ∈ matchingReqs reqs sym := by
    obtain ⟨hne, heq⟩ := List.mem_getLast?_eq_getLast (x := rl) hrl
    rw [heq]
    exact List.getLast_mem hne
  rw [matchingReqs, List.mem_filter] at hrlmem
  obtain ⟨hrlreqs, hrlpred⟩ := hrlmem
  rw [Bool.and_eq_true] at hrlpred
  have hrlw : wellFormed rl = true := hrlpred.1
  have hrlsym : rl.symbol = some sym := by
    have := hrlpred.2
    rwa [beq_iff_eq] at this
  obtain ⟨s0, t0, d0, hs0, ht0, hd0⟩ := symbol_fields_of_wellFormed rl hrlw
  have hs0sym : s0 = sym := by
    rw [hs0] at hrlsym
    exact Option.some.inj hrlsym
  subst hs0sym
  have hpr := process_req_of_wellFormed env rl s0 t0 d0 hs0 ht0 hd0 hrlw
  have hemp : (fetch_history env s0 t0 d0).1 = [] :=
    fetch_empty_of_upstreamEmpty env s0 t0 d0
      (hup rl hrlreqs hrlw hrlsym t0 d0 ht0 hd0)
  rw [hrl]
  simp [hpr, hemp]

/-- Claim C2: the key list of the batch result has no duplicates and its
key set is exactly the set of symbols of the well-formed requests;
malformed requests contribute no key, duplicate symbols collapse to one
key. -/
theorem claim_C2_key_set (env : Env) (reqs : List Req) :
    ((runBatch env reqs).map Prod.fst).Nodup ∧
    (∀ s, s ∈ (runBatch env reqs).map Prod.fst ↔
      ∃ r ∈ reqs, wellFormed r = true ∧ r.symbol = some s) := by
  induction reqs using List.reverseRecOn with
  | nil => simp [runBatch]
  | append_singleton l r ih =>
    rw [runBatch_append_one]
    by_cases hw : wellFormed r = true
    · obtain ⟨s0, t0, d0, hs, ht, hd⟩ := symbol_fields_of_wellFormed r hw
      have hpr := process_req_of_wellFormed env r s0 t0 d0 hs ht hd hw
      constructor
      · simp only [batchStep, hpr]
        exact nodup_keys_pyInsert _ _ _ ih.1
      · intro s
        simp only [batchStep, hpr]
        rw [mem_keys_pyInsert, ih.2 s]
        constructor
        · rintro (⟨r2, hr2, hw2, hs2⟩ | rfl)
          · exact ⟨r2, List.mem_append_left _ hr2, hw2, hs2⟩
          · exact ⟨r, List.mem_append_right _ (List.mem_singleton_self r), hw, hs⟩
        · rintro ⟨r2, hr2, hw2, hs2⟩
          rcases List.mem_append.mp hr2 with h2 | h2
          · exact Or.inl ⟨r2, h2, hw2, hs2⟩
          · rcases List.mem_singleton.mp h2 with rfl
            right
            rw [hs] at hs2
            exact (Option.some.inj hs2).symm
    · have hw' : wellFormed r = false := by
        cases hww : wellFormed r
        · rfl
        · exact absurd hww hw
      constructor
      · simp only [batchStep, process_req_of_malformed env r hw']
        exact ih.1
      · intro s
        simp only [batchStep, process_req_of_malformed env r hw']
        rw [ih.2 s]
        constructor
        · rintro ⟨r2, hr2, hw2, hs2⟩
          exact ⟨r2, List.mem_append_left _ hr2, hw2, hs2⟩
        · rintro ⟨r2, hr2, hw2, hs2⟩
          rcases List.mem_append.mp hr2 with h2 | h2
          · exact ⟨r2, h2, hw2, hs2⟩
          · rcases List.mem_singleton.mp h2 with rfl
            rw [hw'] at hw2
            cases hw2

/-! ### Dispatcher-determinism claims -/

/-- Claim C9: any two complete executions of the batch path over the same
requests and the same upstream environment — whatever order the workers
complete in — build the same result dict and print byte-identical JSON on
standard output. -/
theorem claim_C9_schedule_deterministic (env : Env) (reqs : List Req)
    (t1 t2 : List Ev) (s1 s2 : ExecState)
    (h1 : runTrace env reqs initState t1 = some s1) (d1 : s1.nextIdx = reqs.length)
    (h2 : runTrace env reqs initState t2 = some s2) (d2 : s2.nextIdx = reqs.length) :
    s1.out = runBatch env reqs ∧ s1.out = s2.out ∧ dumpBatch s1.out = dumpBatch s2.out := by
  have e1 := runTrace_out_eq_runBatch env reqs t1 s1 h1 d1
  have e2 := runTrace_out_eq_runBatch env reqs t2 s2 h2 d2
  rw [e1, e2]
  exact ⟨rfl, rfl, rfl⟩

/-- Claim C10: when several well-formed requests share a symbol, every
complete execution maps that symbol to the result of the matching request
that occurs last in input order — the winner is fixed by input position,
not by completion timing. -/
theorem claim_C10_last_input_wins (env : Env) (reqs : List Req) (sym : String)
    (t : List Ev) (st : ExecState)
    (h : runTrace env reqs initState t = some st) (hd : st.nextIdx = reqs.length)
    (rl : Req) (hlast : (matchingReqs reqs sym).getLast? = some rl) :
    List.lookup sym st.out = (process_req env rl).map Prod.snd := by
  rw [runTrace_out_eq_runBatch env reqs t st h hd, lookup_runBatch_last, hlast]
  rfl

/-! ### CLI-shim claims -/

/-- Claim C3, counterexample: with no arguments and an interactive stdin
the script prints `{}` (the batch path with zero requests), not the empty
JSON array the claim asserts. -/
theorem claim_C3_counterexample :
    (main_model envW jlW ["fetch-asset-history.py"] ⟨true, ""⟩).stdout = "\x7b\x7d" ∧
    (main_model envW jlW ["fetch-asset-history.py"] ⟨true, ""⟩).stdout ≠ "[]" :=
  ⟨rfl, by decide⟩

/-- Claim C3, amended: with no command-line arguments and an interactive
stdin, the default input `[]` takes the batch path and the script prints
the empty JSON object `\x7b\x7d` (exit 0, empty stderr), for any
environment and any `json.loads` behaving correctly on `[]`. -/
theorem claim_C3_amended_empty_object (env : Env)
    (jl : String → Except String (List Req)) (prog : String) (stdin : StdinState)
    (hta : stdin.isatty = true) (hjl : jl "[]" = Except.ok []) :
    main_model env jl [prog] stdin = ⟨"\x7b\x7d", [], 0⟩ := by
  simp [main_model, hta, hjl, runBatch, batchErrs, dumpBatch,
    show startsWithChar (pyStrip "[]") '[' = true from rfl]
  rfl

/-- Claim C4, counterexample: on the single argument `not json` the script
prints the empty JSON array `[]` (the legacy fallback, since the input does
not start with `[`), writes nothing to stderr, and exits 0 — not the
claimed `\x7b\x7d` with a diagnostic. -/
theorem claim_C4_counterexample :
    main_model envW jlW ["fetch-asset-history.py", "not json"] ⟨true, ""⟩ =
      ⟨"[]", [], 0⟩ ∧
    (main_model envW jlW ["fetch-asset-history.py", "not json"] ⟨true, ""⟩).stdout ≠
      "\x7b\x7d" ∧
    (main_model envW jlW ["fetch-asset-history.py", "not json"] ⟨true, ""⟩).stderr = [] :=
  ⟨rfl, by decide, rfl⟩

/-- Claim C4, amended: the input `not json` (as single argument or on
stdin) does not start with `[`, so it takes the legacy fallback: output is
the empty JSON array `[]`, stderr is empty, exit status 0.  The claimed
`\x7b\x7d`-plus-diagnostic behaviour occurs only for undecodable input
that does start with `[`. -/
theorem claim_C4_amended_legacy_fallback (env : Env)
    (jl : String → Except String (List Req)) (prog : String)
    (stdinA stdinB : StdinState) (htb : stdinB.isatty = false)
    (hcb : stdinB.content = "not json") :
    main_model env jl [prog, "not json"] stdinA = ⟨"[]", [], 0⟩ ∧
    main_model env jl [prog] stdinB = ⟨"[]", [], 0⟩ ∧
    (∀ e, jl "[oops" = Except.error e →
      main_model env jl [prog, "[oops"] stdinA =
        ⟨"\x7b\x7d", ["Critical Error: " ++ e], 0⟩) := by
  refine ⟨?_, ?_, ?_⟩
  · simp [main_model, show startsWithChar (pyStrip "not json") '[' = false from rfl]
  · simp [main_model, htb, hcb,
      show startsWithChar (pyStrip "not json") '[' = false from rfl]
  · intro e hje
    simp [main_model, hje,
      show startsWithChar (pyStrip "[oops") '[' = true from rfl]

/-! ### Concrete instantiations of the verified properties -/

theorem claim_C1_failed_fetch_keeps_key_witness :
    List.lookup "BTC" (runBatch envW [⟨some "BTC", some "kripto", some "2024-01-01"⟩]) =
      some [] :=
  claim_C1_failed_fetch_keeps_key envW [⟨some "BTC", some "kripto", some "2024-01-01"⟩]
    ⟨some "BTC", some "kripto", some "2024-01-01"⟩ "BTC"
    (List.mem_singleton_self _) rfl rfl
    (by
      intro r hr hwf hsy t0 d0 ht hd
      rcases List.mem_singleton.mp hr with rfl
      cases ht
      cases hd
      simp only [upstreamEmptyFor]
      rw [if_neg (by decide)]
      intro pts hp
      have hp2 : Except.ok (ε := String) ([] : List PricePoint) = Except.ok pts := hp
      exact (Except.ok.inj hp2).symm)

theorem claim_C5_chunking_witness :
    (fetch_history envW "mac" "fon" "2024-01-01").1 =
      ((chunkWindows 0 envW.now).map (fetchWindow envW (pyUpper "mac") (kindOf "fon"))).flatten :=
  (claim_C5_chunking envW "mac" "fon" "2024-01-01" 0 rfl rfl (by decide)).2.2.2.1

theorem claim_C6_amended_window_failure_witness :
    chunkErrMsg 0 90 "down" ∈ swallowedLines envW (pyUpper "mac") (kindOf "fon") 0 envW.now ∧
    (fetch_history envW "mac" "fon" "2024-01-01").2 = [] :=
  (claim_C6_amended_window_failure envW "mac" "fon" "2024-01-01" 0 rfl rfl (0, 90)
    (by decide) "down" rfl).imp id And.left

theorem claim_C7_silent_date_fallback_witness :
    fetch_history envW "mac" "fon" "garbage" =
      chunkLoop envW (pyUpper "mac") (kindOf "fon") (envW.now - 30) envW.now :=
  (claim_C7_silent_date_fallback envW "mac" "fon" "garbage" rfl rfl).1

theorem claim_C8_symbol_formatting_witness :
    formatSymbol "sasa" "altin" = pyUpper "sasa" ∧
    fetch_history envW "mac" "befas" "2024-01-01" =
      chunkLoop envW (pyUpper "mac") (kindOf "befas") (startOf envW "2024-01-01") envW.now ∧
    fetch_history envW "btc" "kripto" "2024-01-01" =
      yfBranch envW (formatSymbol "btc" "kripto") "2024-01-01" :=
  ⟨(claim_C8_symbol_formatting envW "sasa" "altin" "d").2.2.1 (by decide) (by decide),
   (claim_C8_symbol_formatting envW "mac" "befas" "2024-01-01").2.2.2.1 rfl,
   (claim_C8_symbol_formatting envW "btc" "kripto" "2024-01-01").2.2.2.2 rfl⟩

theorem claim_C9_schedule_deterministic_witness :
    runTrace envW reqsW initState t1W = some s1W ∧
    runTrace envW reqsW initState t2W = some s2W ∧
    dumpBatch s1W.out = dumpBatch s2W.out :=
  ⟨rfl, rfl,
   (claim_C9_schedule_deterministic envW reqsW t1W t2W s1W s2W rfl rfl rfl rfl).2.2⟩

theorem claim_C10_last_input_wins_witness :
    runTrace envW reqsD initState tD = some stD ∧
    List.lookup "A" stD.out =
      (process_req envW ⟨some "A", some "x", some "d2"⟩).map Prod.snd :=
  ⟨rfl,
   claim_C10_last_input_wins envW reqsD "A" tD stD rfl rfl
     ⟨some "A", some "x", some "d2"⟩ rfl⟩

theorem claim_C3_amended_empty_object_witness :
    main_model envW jlW ["fetch-asset-history.py"] ⟨true, ""⟩ = ⟨"\x7b\x7d", [], 0⟩ :=
  claim_C3_amended_empty_object envW jlW "fetch-asset-history.py" ⟨true, ""⟩ rfl rfl

theorem claim_C4_amended_legacy_fallback_witness :
    main_model envW jlW ["fetch-asset-history.py", "not json"] ⟨true, ""⟩ = ⟨"[]", [], 0⟩ ∧
    main_model envW jlW ["fetch-asset-history.py"] ⟨false, "not json"⟩ = ⟨"[]", [], 0⟩ ∧
    main_model envW jlW ["fetch-asset-history.py", "[oops"] ⟨true, ""⟩ =
      ⟨"\x7b\x7d", ["Critical Error: " ++ "Expecting value: line 1 column 1 (char 0)"], 0⟩ := by
  obtain ⟨h1, h2, h3⟩ := claim_C4_amended_legacy_fallback envW jlW "fetch-asset-history.py"
    ⟨true, ""⟩ ⟨false, "not json"⟩ rfl rfl
  exact ⟨h1, h2, h3 "Expecting value: line 1 column 1 (char 0)" rfl⟩
